import Mathlib

/-!
Verification development for the tauphi repository.

Shallow embedding of the perf_event sampling crate
(src/perf_event/src/sampling.rs, src/perf_event/src/lib.rs) and of the
symbol-resolution module (src/tauphi/src/symbols.rs).

Machine integers (u64/u32/usize) are modelled as Nat; usize arithmetic that
the code performs is non-overflowing on the inputs considered, except where
an explicit bound (2^64 for usize parsing) is part of the behaviour.
External effects (the kernel calls of perf_event, process spawning,
addr2line pipes) are modelled as explicit oracles or streams.
-/

set_option maxRecDepth 8000

namespace Tauphi

/-! ## perf_event/src/sampling.rs -/

/-- Maximum entries in the stack trace (const CALLCHAIN_DEPTH: usize = 123). -/
def CALLCHAIN_DEPTH : Nat := 123

/-- The decoded sample struct (pub struct Sample). -/
structure Sample where
  ip : Nat
  pid : Nat
  tid : Nat
  time : Nat
  cpu : Nat
  callchain : List Nat
deriving DecidableEq, Repr

/-- The raw, layout-compatible perf_event sample (struct RawSample).
The trailing array callchain: [u64; CALLCHAIN_DEPTH] is modelled as a list;
theorems about decoding carry the hypothesis that its length is
CALLCHAIN_DEPTH, which the Rust array type enforces. -/
structure RawSample where
  ip : Nat
  pid : Nat
  tid : Nat
  time : Nat
  cpu : Nat
  cpu_pad : Nat
  callchain_entries : Nat
  callchain : List Nat
deriving DecidableEq, Repr

/-- mem::size_of::\<RawSample\>() = 1024 (asserted by raw_sample_alignment_test). -/
def SIZE_OF_RAW_SAMPLE : Nat := 1024

/-- Size of the fixed part of RawSample, without the trailing callchain:
mem::size_of::\<RawSample\>() - 8 * CALLCHAIN_DEPTH = 40. -/
def FIXED_HEADER_SIZE : Nat := SIZE_OF_RAW_SAMPLE - 8 * CALLCHAIN_DEPTH

/-- A Rust panic; slice indexing raw_sample.callchain[0..n] with
n greater than the array length 123 panics at runtime. -/
inductive RustPanic where
  | sliceIndexOutOfRange
deriving DecidableEq, Repr

/-- Sampler::get_sample.  The kernel read pe_get_event is modelled by its
observable outcome: sample_size, the byte count it reports, and raw, the
buffer contents after the call.  The Rust function body is:
if sample_size >= FIXED_HEADER_SIZE, build the Sample whose callchain is
raw_sample.callchain[0..callchain_entries].to_vec(); else None.
The slice bound check of the Rust indexing operation is explicit here:
a reported entry count exceeding the array length panics. -/
def get_sample (sample_size : Nat) (raw : RawSample) : Except RustPanic (Option Sample) :=
  if FIXED_HEADER_SIZE ≤ sample_size then
    if raw.callchain_entries ≤ raw.callchain.length then
      Except.ok (some
        { ip := raw.ip
          pid := raw.pid
          tid := raw.tid
          time := raw.time
          cpu := raw.cpu
          callchain := raw.callchain.take raw.callchain_entries })
    else
      Except.error RustPanic.sliceIndexOutOfRange
  else
    Except.ok none

/-- perf_event/src/error.rs PerfError (FailedIO's payload is irrelevant here). -/
inductive PerfError where
  | FailedOpen
  | FailedStart
  | FailedIO
deriving DecidableEq, Repr

/-- Fuel-driven doubling loop computing usize::next_power_of_two:
starting from p, double until n ≤ p. -/
def npotGo (n : Nat) : Nat → Nat → Nat
  | 0, p => p
  | fuel + 1, p => if n ≤ p then p else npotGo n fuel (2 * p)

/-- Rust usize::next_power_of_two: the smallest power of two ≥ n (1 for n = 0).
Fuel n suffices because n < 2 ^ n. -/
def next_power_of_two (n : Nat) : Nat := npotGo n n 1

/-- const BUFFER_SIZE_SECS: usize = 10. -/
def BUFFER_SIZE_SECS : Nat := 10

/-- const POLL_FREQUENCY_MS: usize = 100. -/
def POLL_FREQUENCY_MS : Nat := 100

/-- The ring-buffer page count computed in Sampler::new:
(BUFFER_SIZE_SECS * frequency * sample_size / page_size).next_power_of_two().
sample_size = mem::size_of::\<Sample\>() and page_size = sysconf(_SC_PAGE_SIZE)
are platform-determined, so both are parameters of the model. -/
def num_pages (frequency sample_size page_size : Nat) : Nat :=
  next_power_of_two (BUFFER_SIZE_SECS * frequency * sample_size / page_size)

/-- A call into the C perf_event layer, for tracing which kernel calls
Sampler::new makes and with which arguments. -/
inductive PeCall where
  | openSampler (cpu pid : Int) (frequency poll_freq num_pages depth : Nat)
  | start (do_reset : Bool)
deriving DecidableEq, Repr

/-- Outcome model of the two external C calls made by Sampler::new. -/
structure KernelModel where
  openOk : Bool
  startOk : Bool

/-- Sampler::new(cpu, pid, frequency).  Returns the Result together with the
trace of kernel calls actually issued, in order.  The body computes num_pages
and poll_freq, then unconditionally calls pe_open_event_sampler, then
pe_start; there is no validation of cpu/pid before the kernel call. -/
def sampler_new (k : KernelModel) (cpu pid : Int) (frequency sample_size page_size : Nat) :
    Except PerfError Unit × List PeCall :=
  let np := num_pages frequency sample_size page_size
  let poll_freq := max 1 (frequency / (1000 / POLL_FREQUENCY_MS))
  let calls := [PeCall.openSampler cpu pid frequency poll_freq np CALLCHAIN_DEPTH]
  if k.openOk then
    let calls := calls ++ [PeCall.start true]
    if k.startOk then (Except.ok (), calls) else (Except.error PerfError.FailedStart, calls)
  else
    (Except.error PerfError.FailedOpen, calls)

/-! ## tauphi/src/symbols.rs: /proc/pid/maps parsing -/

/-- tauphi/src/error.rs TauphiError; InvalidPIDMapsFromat is the format error
used by parse_map_line, ioError models the io::Error variant. -/
inductive TauphiError where
  | Perf
  | ioError
  | InvalidPIDMapsFromat
deriving DecidableEq, Repr

/-- File (or its region) mapped in memory of another process
(struct MappedRegion).  Field names begin/end of the source are rbegin/rend
here because end is a Lean keyword; file (PathBuf) is modelled as String. -/
structure MappedRegion where
  file : String
  rbegin : Nat
  rend : Nat
  offset : Nat
deriving DecidableEq, Repr

/-- Rust str::splitn(n, sep): at most n pieces, the last piece holding the
unsplit remainder; always at least one piece for n ≥ 1. -/
def rustSplitn (n : Nat) (sep : Char) (cs : List Char) : List (List Char) :=
  match n, cs with
  | 0, _ => []
  | 1, cs => [cs]
  | _ + 2, [] => [[]]
  | n + 2, c :: rest =>
    if c = sep then
      [] :: rustSplitn (n + 1) sep rest
    else
      match rustSplitn (n + 2) sep rest with
      | [] => [[c]]
      | p :: ps => (c :: p) :: ps

/-- Rust str::split_once(sep): split at the first occurrence of sep. -/
def splitOnce (sep : Char) : List Char → Option (List Char × List Char)
  | [] => none
  | c :: cs =>
    if c = sep then
      some ([], cs)
    else
      match splitOnce sep cs with
      | none => none
      | some (a, b) => some (c :: a, b)

/-- Rust str::trim: drop whitespace from both ends. -/
def rustTrim (cs : List Char) : List Char :=
  ((cs.dropWhile Char.isWhitespace).reverse.dropWhile Char.isWhitespace).reverse

/-- Value of a hexadecimal digit character, if it is one. -/
def hexVal? (c : Char) : Option Nat :=
  if 48 ≤ c.toNat ∧ c.toNat ≤ 57 then some (c.toNat - 48)
  else if 97 ≤ c.toNat ∧ c.toNat ≤ 102 then some (c.toNat - 97 + 10)
  else if 65 ≤ c.toNat ∧ c.toNat ≤ 70 then some (c.toNat - 65 + 10)
  else none

/-- Rust usize::from_str_radix(s, 16) on a 64-bit target: an optional leading
plus sign, then one or more hex digits, value below 2^64; anything else
(empty, minus sign, invalid digit, overflow) is an error. -/
def from_str_radix_16 (cs : List Char) : Option Nat :=
  let digits := match cs with
    | '+' :: rest => rest
    | _ => cs
  match digits with
  | [] => none
  | _ =>
    digits.foldl
      (fun acc c =>
        match acc, hexVal? c with
        | some a, some d =>
          let v := 16 * a + d
          if v < 2 ^ 64 then some v else none
        | _, _ => none)
      (some 0)

/-- parse_map_line: split the line into at most six space-delimited fields
(range, perms, offset, dev, inode, path); any missing field is a format
error; the trailing path field is trimmed and always accepted; the range
must split once on a dash and begin, end and offset must parse as hex. -/
def parse_map_line (line : List Char) : Except TauphiError MappedRegion :=
  match rustSplitn 6 ' ' line with
  | [range, _perms, offsetField, _dev, _inode, pathField] =>
    let path := String.mk (rustTrim pathField)
    match splitOnce '-' range with
    | none => Except.error TauphiError.InvalidPIDMapsFromat
    | some (bs, es) =>
      match from_str_radix_16 bs, from_str_radix_16 es, from_str_radix_16 offsetField with
      | some b, some e, some o =>
        Except.ok { file := path, rbegin := b, rend := e, offset := o }
      | _, _, _ => Except.error TauphiError.InvalidPIDMapsFromat
  | _ => Except.error TauphiError.InvalidPIDMapsFromat

/-- PIDInfo::new's region collection:
lines().map(parse_map_line).collect::\<Result\<Vec\<_\>, _\>\>() — the whole
snapshot fails at the first malformed line, otherwise the full list is
returned in order. -/
def parseAllMapLines : List (List Char) → Except TauphiError (List MappedRegion)
  | [] => Except.ok []
  | l :: ls =>
    match parse_map_line l with
    | Except.error e => Except.error e
    | Except.ok r =>
      match parseAllMapLines ls with
      | Except.error e => Except.error e
      | Except.ok rs => Except.ok (r :: rs)

/-- Modelled from the spec, for comparison with parse_map_line (refinement):
a line is well-formed when it splits into exactly six space-delimited fields
and the begin-end range and the offset are valid hexadecimal; the path field
is unconstrained. -/
def specLineWellFormed (line : List Char) : Bool :=
  match rustSplitn 6 ' ' line with
  | [range, _perms, offsetField, _dev, _inode, _pathField] =>
    match splitOnce '-' range with
    | some (bs, es) =>
      (from_str_radix_16 bs).isSome && (from_str_radix_16 es).isSome &&
        (from_str_radix_16 offsetField).isSome
    | none => false
  | _ => false

/-! ## tauphi/src/symbols.rs: SymbolResolver and PidResolver -/

/-- Function symbol (struct FuncSymbol). -/
structure FuncSymbol where
  func : String
  file : String
deriving DecidableEq, Repr

/-- Resolver state of a mapped region (struct PidRegionResolver).
begin/end are rbegin/rend as in MappedRegion. -/
structure PidRegionResolver where
  rbegin : Nat
  rend : Nat
  start_offset : Nat
  resolver_idx : Nat
deriving DecidableEq, Repr

/-- BufRead::read_line on the worker's stdout, modelled over the stream of
pending output characters: consume up to and including the first newline
(or the whole stream at end of output), returning the line read and the
rest of the stream.  An empty stream models a read of 0 bytes (EOF of an
exited worker), which Rust reports as Ok. -/
def read_line : List Char → List Char × List Char
  | [] => ([], [])
  | c :: cs =>
    if c = '\n' then
      ([c], cs)
    else
      let (l, r) := read_line cs
      (c :: l, r)

/-- Rust String::pop: remove the last character if any (the code ignores the
returned character, so only the shortened string matters). -/
def string_pop (cs : List Char) : List Char := cs.dropLast

/-- The output side of SymbolResolver::resolve: read one line for the
function name and one line for the source location, popping the final
character of each unconditionally.  Returns both strings and the unread
rest of the stream. -/
def symbol_resolve_output (stream : List Char) : List Char × List Char × List Char :=
  let (l1, s1) := read_line stream
  let (l2, s2) := read_line s1
  (string_pop l1, string_pop l2, s2)

/-- BTreeMap::range((Included(ip), Unbounded)).next() over a map represented
as an association list sorted by key in ascending order: the first entry
whose key is ≥ ip. -/
def btreeFirstGE (regions : List (Nat × PidRegionResolver)) (ip : Nat) :
    Option (Nat × PidRegionResolver) :=
  regions.find? fun kv => decide (ip ≤ kv.1)

/-- PidResolver::resolve(ip).  The pooled SymbolResolver workers are modelled
by the oracle tr: tr i a is the outcome of self.resolvers[i].1.resolve(a),
with none for an Err result (which the code maps to None).  The candidate
region is the one with the smallest end ≥ ip; its bounds are re-checked, a
failed check returns None. -/
def pidResolve (tr : Nat → Nat → Option FuncSymbol)
    (regions : List (Nat × PidRegionResolver)) (ip : Nat) : Option FuncSymbol :=
  match btreeFirstGE regions ip with
  | none => none
  | some kv =>
    if kv.2.rbegin ≤ ip ∧ ip < kv.2.rend then
      tr kv.2.resolver_idx (ip - kv.2.rbegin + kv.2.start_offset)
    else
      none

/-- [sampling::Sample] with instruction pointers resolved (struct ResolvedSample). -/
structure ResolvedSample where
  orig : Sample
  ip : Option FuncSymbol
  callchain : List (Option FuncSymbol)
deriving DecidableEq, Repr

/-- PidResolver::resolve_sample: resolve every callchain entry positionally
and the primary ip, carrying the original sample through unmodified. -/
def resolve_sample (tr : Nat → Nat → Option FuncSymbol)
    (regions : List (Nat × PidRegionResolver)) (sample : Sample) : ResolvedSample :=
  let callchain := sample.callchain.map fun x => pidResolve tr regions x
  { ip := pidResolve tr regions sample.ip
    orig := sample
    callchain := callchain }

/-- Iterator::position(pred): index of the first element satisfying pred. -/
def listPosition (p : α → Bool) : List α → Option Nat
  | [] => none
  | a :: l => if p a then some 0 else (listPosition p l).map (· + 1)

/-- BTreeMap::insert on the sorted association-list representation:
replace an existing binding of the key, otherwise insert in key order. -/
def stInsert (k : Nat) (v : PidRegionResolver) :
    List (Nat × PidRegionResolver) → List (Nat × PidRegionResolver)
  | [] => [(k, v)]
  | (k', v') :: rest =>
    if k < k' then (k, v) :: (k', v') :: rest
    else if k = k' then (k, v) :: rest
    else (k', v') :: stInsert k v rest

/-- The loop of PidResolver::new over the mapped regions.  spawn models
SymbolResolver::new for a file path (the fallible addr2line process spawn);
its Err is propagated by the ? operator, aborting the whole construction.
resolvers is the pool, one entry per spawned worker, holding the file path
(the worker process itself carries no further state relevant here);
regions is the BTreeMap keyed by region.end. -/
def buildLoop (spawn : String → Except TauphiError Unit) :
    List MappedRegion → List String → List (Nat × PidRegionResolver) →
    Except TauphiError (List String × List (Nat × PidRegionResolver))
  | [], resolvers, regions => Except.ok (resolvers, regions)
  | r :: rest, resolvers, regions =>
    match listPosition (fun x => decide (x = r.file)) resolvers with
    | some i =>
      buildLoop spawn rest resolvers
        (stInsert r.rend
          { rbegin := r.rbegin, rend := r.rend, start_offset := r.offset, resolver_idx := i }
          regions)
    | none =>
      match spawn r.file with
      | Except.error e => Except.error e
      | Except.ok _ =>
        buildLoop spawn rest (resolvers ++ [r.file])
          (stInsert r.rend
            { rbegin := r.rbegin, rend := r.rend, start_offset := r.offset,
              resolver_idx := resolvers.length }
            regions)

/-- PidResolver::new, given the snapshot's mapped regions (the PIDInfo part)
and the spawn oracle. -/
def pidResolverNew (spawn : String → Except TauphiError Unit) (rs : List MappedRegion) :
    Except TauphiError (List String × List (Nat × PidRegionResolver)) :=
  buildLoop spawn rs [] []

/-- Well-formedness of a region map as PidResolver::new builds it from a
snapshot of non-overlapping, nonempty regions: entries are keyed by the
region end, regions are listed in ascending disjoint order. -/
abbrev SnapshotWF (regions : List (Nat × PidRegionResolver)) : Prop :=
  List.Pairwise (fun a b => a.2.rend ≤ b.2.rbegin) regions ∧
    (∀ kv ∈ regions, kv.1 = kv.2.rend) ∧
    ∀ kv ∈ regions, kv.2.rbegin < kv.2.rend

/-- Consistency of one region-map entry with the snapshot R it was built
from and the resolver pool res: the entry records some snapshot region's
bounds and offset, keyed by its end, and its resolver index points at the
pool entry holding exactly that region's file path. -/
abbrev EntryProp (R : List MappedRegion) (res : List String)
    (kv : Nat × PidRegionResolver) : Prop :=
  ∃ r ∈ R, kv.1 = r.rend ∧ kv.2.rbegin = r.rbegin ∧ kv.2.rend = r.rend ∧
    kv.2.start_offset = r.offset ∧
    ∃ h : kv.2.resolver_idx < res.length, res.get ⟨kv.2.resolver_idx, h⟩ = r.file

/-! ## Helper lemmas about next_power_of_two -/

theorem npotGo_ge_self (n : Nat) : ∀ fuel p : Nat, p ≤ npotGo n fuel p := by
  intro fuel
  induction fuel with
  | zero => intro p; exact Nat.le_refl p
  | succ fuel ih =>
    intro p
    rw [npotGo]
    by_cases h : n ≤ p
    · rw [if_pos h]
    · rw [if_neg h]
      exact Nat.le_trans (by omega) (ih (2 * p))

theorem npotGo_ge (n : Nat) : ∀ fuel p : Nat, n ≤ 2 ^ fuel * p → n ≤ npotGo n fuel p := by
  intro fuel
  induction fuel with
  | zero => intro p h; simpa [npotGo] using h
  | succ fuel ih =>
    intro p h
    rw [npotGo]
    by_cases hp : n ≤ p
    · rwa [if_pos hp]
    · rw [if_neg hp]
      apply ih
      calc n ≤ 2 ^ (fuel + 1) * p := h
        _ = 2 ^ fuel * (2 * p) := by ring

theorem npotGo_pow (n : Nat) : ∀ fuel j : Nat, ∃ k, npotGo n fuel (2 ^ j) = 2 ^ k := by
  intro fuel
  induction fuel with
  | zero => intro j; exact ⟨j, rfl⟩
  | succ fuel ih =>
    intro j
    rw [npotGo]
    by_cases h : n ≤ 2 ^ j
    · rw [if_pos h]; exact ⟨j, rfl⟩
    · rw [if_neg h]
      have : 2 * 2 ^ j = 2 ^ (j + 1) := by ring
      rw [this]
      exact ih (j + 1)

theorem npotGo_le (n : Nat) :
    ∀ fuel j m : Nat, j ≤ m → n ≤ 2 ^ m → npotGo n fuel (2 ^ j) ≤ 2 ^ m := by
  intro fuel
  induction fuel with
  | zero =>
    intro j m hjm _
    exact Nat.pow_le_pow_right (by omega) hjm
  | succ fuel ih =>
    intro j m hjm hnm
    rw [npotGo]
    by_cases h : n ≤ 2 ^ j
    · rw [if_pos h]
      exact Nat.pow_le_pow_right (by omega) hjm
    · rw [if_neg h]
      have hlt : 2 ^ j < 2 ^ m := Nat.lt_of_lt_of_le (Nat.lt_of_not_le h) hnm
      have hjm' : j < m := (Nat.pow_lt_pow_iff_right (by omega)).mp hlt
      have : 2 * 2 ^ j = 2 ^ (j + 1) := by ring
      rw [this]
      exact ih (j + 1) m hjm' hnm

theorem one_le_next_power_of_two (n : Nat) : 1 ≤ next_power_of_two n :=
  npotGo_ge_self n n 1

theorem le_next_power_of_two (n : Nat) : n ≤ next_power_of_two n :=
  npotGo_ge n n 1 (by simpa using Nat.le_of_lt (Nat.lt_two_pow n))

theorem next_power_of_two_pow (n : Nat) : ∃ k, next_power_of_two n = 2 ^ k := by
  simpa using npotGo_pow n n 0

theorem next_power_of_two_min (n m : Nat) (h : n ≤ 2 ^ m) : next_power_of_two n ≤ 2 ^ m := by
  simpa using npotGo_le n n 0 m (Nat.zero_le m) h

/-! ## Claim theorems -/

/-- C4: the ring-buffer capacity in pages is the smallest power of two at or
above the 10-second retention window of samples at the requested frequency
and record size, integer-divided by the page size and clamped to at least
one page; at frequency 100, record size 32 and page size 4096 it is
next_power_of_two(10*100*32/4096) = 8. -/
theorem c4_num_pages :
    (∀ frequency sample_size page_size : Nat,
      1 ≤ num_pages frequency sample_size page_size ∧
      (∃ k, num_pages frequency sample_size page_size = 2 ^ k) ∧
      BUFFER_SIZE_SECS * frequency * sample_size / page_size ≤
        num_pages frequency sample_size page_size ∧
      ∀ m, BUFFER_SIZE_SECS * frequency * sample_size / page_size ≤ 2 ^ m →
        num_pages frequency sample_size page_size ≤ 2 ^ m) ∧
    num_pages 100 32 4096 = next_power_of_two (10 * 100 * 32 / 4096) ∧
    num_pages 100 32 4096 = 8 := by
  refine ⟨fun frequency sample_size page_size => ?_, rfl, rfl⟩
  exact ⟨one_le_next_power_of_two _, next_power_of_two_pow _, le_next_power_of_two _,
    fun m hm => next_power_of_two_min _ m hm⟩

/-- C4 witness: instance of the bounds at the scenario's inputs. -/
theorem c4_num_pages_witness :
    1 ≤ num_pages 100 32 4096 ∧ num_pages 100 32 4096 ≤ 2 ^ 3 :=
  ⟨(c4_num_pages.1 100 32 4096).1, (c4_num_pages.1 100 32 4096).2.2.2 3 (by decide)⟩

/-- C3 counterexample: the claim that an open request with cpu = pid = -1 is
rejected with an error before pe_open_event_sampler is invoked is false:
Sampler::new issues the kernel open call with cpu = -1, pid = -1 (and with a
kernel model that accepts it, the open even succeeds). -/
theorem c3_claim_counterexample :
    ¬ (∀ (k : KernelModel) (frequency sample_size page_size : Nat),
        (sampler_new k (-1) (-1) frequency sample_size page_size).1.isOk = false ∧
        ∀ c ∈ (sampler_new k (-1) (-1) frequency sample_size page_size).2,
          ∀ cpu pid f pf np d, c ≠ PeCall.openSampler cpu pid f pf np d) := by
  intro h
  have h1 := (h ⟨true, true⟩ 100 56 4096).1
  exact absurd h1 (by decide)

/-- C3 amended: Sampler::new performs no pre-kernel validation: for every
cpu/pid combination, including cpu = pid = -1, the first kernel interaction
is pe_open_event_sampler with exactly the requested cpu and pid; rejection of
the forbidden combination is left to the kernel call itself, surfacing as
FailedOpen after the call when it fails. -/
theorem c3_open_amended (k : KernelModel) (cpu pid : Int)
    (frequency sample_size page_size : Nat) :
    (sampler_new k cpu pid frequency sample_size page_size).2.head? =
      some (PeCall.openSampler cpu pid frequency
        (max 1 (frequency / (1000 / POLL_FREQUENCY_MS)))
        (num_pages frequency sample_size page_size) CALLCHAIN_DEPTH) ∧
    (k.openOk = false →
      (sampler_new k cpu pid frequency sample_size page_size).1 =
        Except.error PerfError.FailedOpen) := by
  obtain ⟨ko, ks⟩ := k
  cases ko <;> cases ks <;> simp [sampler_new]

/-- C3 witness: with a kernel model that fails the open, the cpu = pid = -1
request produces FailedOpen. -/
theorem c3_open_witness :
    (sampler_new ⟨false, true⟩ (-1) (-1) 100 56 4096).1 =
      Except.error PerfError.FailedOpen :=
  (c3_open_amended ⟨false, true⟩ (-1) (-1) 100 56 4096).2 rfl

/-- C1 counterexample: the claim that every record with at least the fixed
header's worth of bytes decodes to a Sample whose callchain length is the
reported count clamped to 123 is false: a record reporting 124 entries makes
get_sample panic on the slice bound instead of decoding a clamped Sample. -/
theorem c1_claim_counterexample :
    ¬ (∀ (sample_size : Nat) (raw : RawSample),
        raw.callchain.length = CALLCHAIN_DEPTH →
        FIXED_HEADER_SIZE ≤ sample_size →
        ∃ s, get_sample sample_size raw = Except.ok (some s) ∧
          s.callchain.length = min raw.callchain_entries CALLCHAIN_DEPTH) := by
  intro h
  obtain ⟨s, hs, -⟩ :=
    h 40 ⟨0, 0, 0, 0, 0, 0, 124, List.replicate 123 0⟩ (by decide) (by decide)
  have hval : get_sample 40 (⟨0, 0, 0, 0, 0, 0, 124, List.replicate 123 0⟩ : RawSample) =
      Except.error RustPanic.sliceIndexOutOfRange := rfl
  rw [hval] at hs
  exact Except.noConfusion hs

/-- C1 amended: when the reported entry count is at most the fixed capacity
123, the decoded Sample's callchain length equals the reported count exactly
(hence never exceeds 123, and is empty for a zero count); when the reported
count exceeds 123, get_sample panics on the slice indexing instead of
decoding a clamped Sample. -/
theorem c1_callchain_amended (sample_size : Nat) (raw : RawSample)
    (hlen : raw.callchain.length = CALLCHAIN_DEPTH)
    (hsz : FIXED_HEADER_SIZE ≤ sample_size) :
    (raw.callchain_entries ≤ CALLCHAIN_DEPTH →
      ∃ s, get_sample sample_size raw = Except.ok (some s) ∧
        s.callchain.length = min raw.callchain_entries CALLCHAIN_DEPTH ∧
        s.callchain.length ≤ CALLCHAIN_DEPTH ∧
        (raw.callchain_entries = 0 → s.callchain = [])) ∧
    (CALLCHAIN_DEPTH < raw.callchain_entries →
      get_sample sample_size raw = Except.error RustPanic.sliceIndexOutOfRange) := by
  constructor
  · intro hle
    have hb : raw.callchain_entries ≤ raw.callchain.length := by rw [hlen]; exact hle
    refine ⟨{ ip := raw.ip, pid := raw.pid, tid := raw.tid, time := raw.time, cpu := raw.cpu,
              callchain := raw.callchain.take raw.callchain_entries }, ?_, ?_, ?_, ?_⟩
    · simp [get_sample, hsz, hb]
    · simp [List.length_take, hlen]
    · simp only [List.length_take, hlen]
      omega
    · intro h0
      simp [h0]
  · intro hgt
    have hb : ¬ raw.callchain_entries ≤ raw.callchain.length := by rw [hlen]; omega
    simp [get_sample, hsz, hb]

/-- C1 witness: a record reporting 2 entries decodes to a 2-entry callchain. -/
theorem c1_callchain_amended_witness :
    ∃ s, get_sample 40 (⟨1, 2, 3, 4, 5, 0, 2, List.replicate 123 9⟩ : RawSample) =
        Except.ok (some s) ∧
      s.callchain.length = min 2 CALLCHAIN_DEPTH ∧
      s.callchain.length ≤ CALLCHAIN_DEPTH ∧ (2 = 0 → s.callchain = []) :=
  (c1_callchain_amended 40 ⟨1, 2, 3, 4, 5, 0, 2, List.replicate 123 9⟩
    (by decide) (by decide)).1 (by decide)

/-- C7 counterexample: the claim that record decoding never raises or returns
an error for any possible read result is false: a buffer whose record reports
200 callchain entries makes get_sample panic on the slice bound. -/
theorem c7_claim_counterexample :
    ¬ (∀ (sample_size : Nat) (raw : RawSample),
        raw.callchain.length = CALLCHAIN_DEPTH →
        ∀ e, get_sample sample_size raw ≠ Except.error e) := by
  intro h
  exact h 64 ⟨1, 1, 1, 1, 1, 0, 200, List.replicate 123 5⟩ (by decide)
    RustPanic.sliceIndexOutOfRange rfl

/-- C7 amended: a read of fewer bytes than the fixed header size yields None
rather than an error, and decoding yields no error for every read result
whose reported callchain count is at most 123; only a (kernel-impossible)
record reporting more than 123 entries escapes this, by panicking. -/
theorem c7_short_read_amended (sample_size : Nat) (raw : RawSample)
    (hlen : raw.callchain.length = CALLCHAIN_DEPTH) :
    (sample_size < FIXED_HEADER_SIZE → get_sample sample_size raw = Except.ok none) ∧
    (raw.callchain_entries ≤ CALLCHAIN_DEPTH →
      ∀ e, get_sample sample_size raw ≠ Except.error e) := by
  constructor
  · intro hlt
    simp [get_sample, Nat.not_le.mpr hlt]
  · intro hle e
    have hb : raw.callchain_entries ≤ raw.callchain.length := by rw [hlen]; exact hle
    by_cases hsz : FIXED_HEADER_SIZE ≤ sample_size <;> simp [get_sample, hsz, hb]

/-- C7 witness: a 10-byte read is absorbed as "no sample yet". -/
theorem c7_short_read_witness :
    get_sample 10 (⟨0, 0, 0, 0, 0, 0, 0, List.replicate 123 0⟩ : RawSample) =
        Except.ok none ∧
    ∀ e, get_sample 10 (⟨0, 0, 0, 0, 0, 0, 0, List.replicate 123 0⟩ : RawSample) ≠
        Except.error e :=
  ⟨(c7_short_read_amended 10 ⟨0, 0, 0, 0, 0, 0, 0, List.replicate 123 0⟩ (by decide)).1
      (by decide),
   (c7_short_read_amended 10 ⟨0, 0, 0, 0, 0, 0, 0, List.replicate 123 0⟩ (by decide)).2
      (by decide)⟩

/-- C6 counterexample: the claim that a translator spawn failure leaves the
resolver construction successful (fatal to that file only) is false: with a
spawn oracle failing exactly on libA, construction over a two-file snapshot
returns an error instead of a resolver. -/
theorem c6_claim_counterexample :
    ¬ (∀ (spawn : String → Except TauphiError Unit) (rs : List MappedRegion),
        (∃ r ∈ rs, (spawn r.file).isOk = false) →
        (pidResolverNew spawn rs).isOk = true) := by
  intro h
  have := h (fun p => if p = "libA" then Except.error TauphiError.ioError else Except.ok ())
    [⟨"libA", 0, 10, 0⟩, ⟨"libB", 10, 20, 0⟩]
    ⟨⟨"libA", 0, 10, 0⟩, by simp, rfl⟩
  exact absurd this (by decide)

theorem listPosition_eq_none {α : Type} {p : α → Bool} :
    ∀ {l : List α}, listPosition p l = none → ∀ a ∈ l, p a = false := by
  intro l
  induction l with
  | nil => intro _ a ha; cases ha
  | cons x xs ih =>
    intro h a ha
    rw [listPosition] at h
    by_cases hx : p x
    · simp [hx] at h
    · rcases List.mem_cons.mp ha with rfl | ha'
      · simpa using hx
      · have hnone : listPosition p xs = none := by
          simp only [hx, if_neg, Bool.false_eq_true, if_false, Option.map_eq_none'] at h
          exact h
        exact ih hnone a ha'

theorem listPosition_eq_some {α : Type} {p : α → Bool} :
    ∀ {l : List α} {i : Nat}, listPosition p l = some i →
      ∃ h : i < l.length, p (l.get ⟨i, h⟩) = true := by
  intro l
  induction l with
  | nil => intro i h; cases h
  | cons x xs ih =>
    intro i h
    rw [listPosition] at h
    by_cases hx : p x
    · simp only [hx, if_true, Option.some.injEq] at h
      subst h
      exact ⟨by simp, by simpa using hx⟩
    · simp only [hx, Bool.false_eq_true, if_false, Option.map_eq_some'] at h
      obtain ⟨j, hj, rfl⟩ := h
      obtain ⟨hlt, hp⟩ := ih hj
      exact ⟨by simpa using hlt, by simpa using hp⟩

/-- The construction loop fails whenever some remaining region's file has a
failing spawn, provided every already-pooled path spawned successfully (true
of the empty initial pool): the failing file can never be found in the pool,
so its spawn is attempted (unless an earlier spawn fails first), and either
error aborts the loop. -/
theorem buildLoop_fail (spawn : String → Except TauphiError Unit) :
    ∀ (rs : List MappedRegion) (res : List String)
      (map : List (Nat × PidRegionResolver)),
      (∀ p ∈ res, ∃ u, spawn p = Except.ok u) →
      (∃ r ∈ rs, ∃ e, spawn r.file = Except.error e) →
      ∃ e, buildLoop spawn rs res map = Except.error e := by
  intro rs
  induction rs with
  | nil =>
    intro res map _ hex
    obtain ⟨r, hr, -⟩ := hex
    cases hr
  | cons r rest ih =>
    intro res map hres hex
    rw [buildLoop]
    cases hpos : listPosition (fun x => decide (x = r.file)) res with
    | some i =>
      simp only [hpos]
      refine ih res _ hres ?_
      obtain ⟨r', hr', e, he⟩ := hex
      rcases List.mem_cons.mp hr' with rfl | hr''
      · obtain ⟨hilt, hip⟩ := listPosition_eq_some hpos
        have hmem : r'.file ∈ res := by
          have hget : res.get ⟨i, hilt⟩ = r'.file := by simpa using hip
          exact hget ▸ List.get_mem res i hilt
        obtain ⟨u, hu⟩ := hres r'.file hmem
        rw [hu] at he
        exact Except.noConfusion he
      · exact ⟨r', hr'', e, he⟩
    | none =>
      simp only [hpos]
      cases hsp : spawn r.file with
      | error e =>
        simp only [hsp]
        exact ⟨e, rfl⟩
      | ok u =>
        simp only [hsp]
        refine ih (res ++ [r.file]) _ ?_ ?_
        · intro p hp
          rcases List.mem_append.mp hp with hp0 | hp1
          · exact hres p hp0
          · exact ⟨u, (List.mem_singleton.mp hp1) ▸ hsp⟩
        · obtain ⟨r', hr', e, he⟩ := hex
          rcases List.mem_cons.mp hr' with rfl | hr''
          · rw [hsp] at he
            exact Except.noConfusion he
          · exact ⟨r', hr'', e, he⟩

/-- C6 amended: a spawn failure for one file during resolver construction is
fatal to the whole resolver, not to that file only: whenever any region of
the snapshot — first or later — has a file whose worker spawn fails,
PidResolver::new propagates an error and produces no resolver, leaving no
file resolvable. -/
theorem c6_spawn_amended (spawn : String → Except TauphiError Unit)
    (rs : List MappedRegion)
    (hfail : ∃ r ∈ rs, ∃ e, spawn r.file = Except.error e) :
    ∃ e, pidResolverNew spawn rs = Except.error e :=
  buildLoop_fail spawn rs [] [] (fun p hp => absurd hp (List.not_mem_nil p)) hfail

/-- C6 witness: a spawn failure for the second file of a two-file snapshot,
after the first file's spawn succeeded, still aborts the whole construction. -/
theorem c6_spawn_witness :
    ∃ e, pidResolverNew
        (fun p => if p = "libB" then Except.error TauphiError.ioError else Except.ok ())
        [⟨"libA", 0, 10, 0⟩, ⟨"libB", 10, 20, 0⟩] = Except.error e :=
  c6_spawn_amended
    (fun p => if p = "libB" then Except.error TauphiError.ioError else Except.ok ())
    [⟨"libA", 0, 10, 0⟩, ⟨"libB", 10, 20, 0⟩]
    ⟨⟨"libB", 10, 20, 0⟩, by decide, TauphiError.ioError, rfl⟩

/-- C8: resolve_sample carries the original sample through unmodified,
preserves the callchain length, and resolves positionally: entry i of the
resolved callchain is the resolution of entry i of the input callchain
(none where resolution fails); the primary ip is resolved the same way. -/
theorem c8_resolve_sample (tr : Nat → Nat → Option FuncSymbol)
    (regions : List (Nat × PidRegionResolver)) (sample : Sample) :
    (resolve_sample tr regions sample).orig = sample ∧
    (resolve_sample tr regions sample).callchain.length = sample.callchain.length ∧
    (∀ i : Nat, (resolve_sample tr regions sample).callchain[i]? =
      (sample.callchain[i]?).map fun x => pidResolve tr regions x) ∧
    (resolve_sample tr regions sample).ip = pidResolve tr regions sample.ip := by
  refine ⟨rfl, by simp [resolve_sample], fun i => ?_, rfl⟩
  simp [resolve_sample]

/-! ## Helper lemmas about read_line -/

theorem read_line_newline (a r : List Char) (h : '\n' ∉ a) :
    read_line (a ++ '\n' :: r) = (a ++ ['\n'], r) := by
  induction a with
  | nil => simp [read_line]
  | cons c cs ih =>
    have hc : ¬ c = '\n' := fun hh => h (by simp [hh])
    have hcs : '\n' ∉ cs := fun hm => h (List.mem_cons_of_mem _ hm)
    simp [read_line, hc, ih hcs]

theorem read_line_no_newline (a : List Char) (h : '\n' ∉ a) :
    read_line a = (a, []) := by
  induction a with
  | nil => rfl
  | cons c cs ih =>
    have hc : ¬ c = '\n' := fun hh => h (by simp [hh])
    have hcs : '\n' ∉ cs := fun hm => h (List.mem_cons_of_mem _ hm)
    simp [read_line, hc, ih hcs]

/-- C10: each returned string of SymbolResolver::resolve is the response line
with its final character removed unconditionally: a line ending in a newline
loses exactly the newline; a nonempty final line arriving without a newline
loses its last content character; reads from an exited worker (empty stream)
produce empty strings rather than an error. -/
theorem c10_line_pop :
    (∀ a b : List Char, '\n' ∉ a → '\n' ∉ b →
      symbol_resolve_output (a ++ '\n' :: (b ++ ['\n'])) = (a, b, [])) ∧
    (∀ a b : List Char, '\n' ∉ a → '\n' ∉ b → b ≠ [] →
      symbol_resolve_output (a ++ '\n' :: b) = (a, b.dropLast, [])) ∧
    symbol_resolve_output [] = ([], [], []) := by
  refine ⟨fun a b ha hb => ?_, fun a b ha hb hne => ?_, rfl⟩
  · have h2 : read_line (b ++ '\n' :: []) = (b ++ ['\n'], []) := read_line_newline b [] hb
    simp only [symbol_resolve_output, read_line_newline a (b ++ ['\n']) ha] at *
    simp [h2, string_pop, List.dropLast_concat]
  · simp only [symbol_resolve_output, read_line_newline a b ha]
    simp [read_line_no_newline b hb, string_pop, List.dropLast_concat]

/-- C10 witness: a two-line newline-terminated response is stripped of its
newlines. -/
theorem c10_line_pop_witness :
    symbol_resolve_output (['f'] ++ '\n' :: (['s'] ++ ['\n'])) = (['f'], ['s'], []) :=
  c10_line_pop.1 ['f'] ['s'] (by decide) (by decide)

/-! ## Helper lemmas about maps parsing -/

theorem parse_map_line_error (l : List Char) (e : TauphiError)
    (h : parse_map_line l = Except.error e) : e = TauphiError.InvalidPIDMapsFromat := by
  unfold parse_map_line at h
  repeat' split at h
  all_goals simp_all

theorem parseAll_isOk (lines : List (List Char)) :
    (parseAllMapLines lines).isOk = lines.all fun l => (parse_map_line l).isOk := by
  induction lines with
  | nil => rfl
  | cons l ls ih =>
    rw [parseAllMapLines, List.all_cons, ← ih]
    cases h : parse_map_line l with
    | error e => simp only [h]; rfl
    | ok r =>
      simp only [h]
      cases h2 : parseAllMapLines ls with
      | error e => simp only [h2]; rfl
      | ok rs => simp only [h2]; rfl

theorem parseAll_forall₂ (lines : List (List Char)) (regions : List MappedRegion)
    (h : parseAllMapLines lines = Except.ok regions) :
    List.Forall₂ (fun l r => parse_map_line l = Except.ok r) lines regions := by
  induction lines generalizing regions with
  | nil =>
    rw [parseAllMapLines] at h
    injection h with h'
    subst h'
    exact List.Forall₂.nil
  | cons l ls ih =>
    rw [parseAllMapLines] at h
    cases h1 : parse_map_line l with
    | error e => rw [h1] at h; exact Except.noConfusion h
    | ok r =>
      rw [h1] at h
      cases h2 : parseAllMapLines ls with
      | error e => rw [h2] at h; exact Except.noConfusion h
      | ok rs =>
        rw [h2] at h
        injection h with h'
        subst h'
        exact List.Forall₂.cons h1 (ih rs h2)

theorem parseAll_error (lines : List (List Char)) (e : TauphiError)
    (h : parseAllMapLines lines = Except.error e) :
    e = TauphiError.InvalidPIDMapsFromat := by
  induction lines generalizing e with
  | nil => rw [parseAllMapLines] at h; exact Except.noConfusion h
  | cons l ls ih =>
    rw [parseAllMapLines] at h
    cases h1 : parse_map_line l with
    | error e1 =>
      rw [h1] at h
      injection h with h'
      rw [← h']
      exact parse_map_line_error l e1 h1
    | ok r =>
      rw [h1] at h
      cases h2 : parseAllMapLines ls with
      | error e2 =>
        rw [h2] at h
        injection h with h'
        rw [← h']
        exact ih e2 h2
      | ok rs => rw [h2] at h; exact Except.noConfusion h

theorem parse_map_line_isOk (line : List Char) :
    (parse_map_line line).isOk = specLineWellFormed line := by
  unfold parse_map_line specLineWellFormed
  generalize rustSplitn 6 ' ' line = parts
  rcases parts with - | ⟨r, - | ⟨p2, - | ⟨p3, - | ⟨p4, - | ⟨p5, - | ⟨p6, - | ⟨p7, rest⟩⟩⟩⟩⟩⟩⟩
  all_goals try rfl
  rcases hso : splitOnce '-' r with - | ⟨bs, es⟩
  · simp only [hso]; rfl
  · rcases hb : from_str_radix_16 bs with - | b <;>
      rcases he : from_str_radix_16 es with - | e <;>
        rcases ho : from_str_radix_16 p3 with - | o <;>
          simp [hso, hb, he, ho, Except.isOk, Except.toBool]

/-- C5: the snapshot parse succeeds exactly when every line is well-formed
(six space-delimited fields, the unconstrained path field trailing, valid
hexadecimal begin-end range and offset), in which case the full region list
is returned in order; any malformed line fails the entire snapshot with the
format error, and no partial region list is ever produced. -/
theorem c5_parse_maps :
    (∀ lines : List (List Char),
      (parseAllMapLines lines).isOk = lines.all fun l => (parse_map_line l).isOk) ∧
    (∀ lines regions, parseAllMapLines lines = Except.ok regions →
      List.Forall₂ (fun l r => parse_map_line l = Except.ok r) lines regions) ∧
    (∀ lines e, parseAllMapLines lines = Except.error e →
      e = TauphiError.InvalidPIDMapsFromat) ∧
    ∀ line, (parse_map_line line).isOk = specLineWellFormed line :=
  ⟨parseAll_isOk, parseAll_forall₂, parseAll_error, parse_map_line_isOk⟩

/-- C5 witness: a two-line snapshot with an ordinary path and a pseudo-path
parses to the full region list. -/
theorem c5_parse_maps_witness :
    List.Forall₂ (fun l r => parse_map_line l = Except.ok r)
      ["0-a r 0 0 0 /x".data, "10-ff r-xp 5 08:02 333 [stack]".data]
      [⟨"/x", 0, 10, 0⟩, ⟨"[stack]", 16, 255, 5⟩] :=
  c5_parse_maps.2.1 _ _ rfl

/-! ## Helper lemmas about the region lookup -/

theorem btreeFirstGE_containing (regions : List (Nat × PidRegionResolver)) (ip : Nat)
    (hchain : List.Pairwise (fun a b => a.2.rend ≤ b.2.rbegin) regions)
    (hkey : ∀ kv ∈ regions, kv.1 = kv.2.rend)
    (kv : Nat × PidRegionResolver) (hmem : kv ∈ regions)
    (hlo : kv.2.rbegin ≤ ip) (hhi : ip < kv.2.rend)
    (hnotend : ∀ kv2 ∈ regions, kv2.2.rend ≠ ip) :
    btreeFirstGE regions ip = some kv := by
  induction regions with
  | nil => cases hmem
  | cons a rest ih =>
    rcases List.mem_cons.mp hmem with rfl | hmem'
    · have ha : decide (ip ≤ kv.1) = true := by
        rw [hkey kv (List.mem_cons_self kv rest)]
        simpa using Nat.le_of_lt hhi
      unfold btreeFirstGE
      exact List.find?_cons_of_pos rest ha
    · have hrel : a.2.rend ≤ kv.2.rbegin := (List.pairwise_cons.mp hchain).1 kv hmem'
      have hane : a.2.rend ≠ ip := hnotend a (List.mem_cons_self a rest)
      have halt : ¬ (decide (ip ≤ a.1) = true) := by
        rw [hkey a (List.mem_cons_self a rest)]
        simp only [decide_eq_true_eq]
        omega
      have htail : btreeFirstGE rest ip = some kv :=
        ih (List.pairwise_cons.mp hchain).2
          (fun kv2 h2 => hkey kv2 (List.mem_cons_of_mem a h2)) hmem'
          (fun kv2 h2 => hnotend kv2 (List.mem_cons_of_mem a h2))
      unfold btreeFirstGE at htail ⊢
      rw [List.find?_cons_of_neg rest halt]
      exact htail

/-- C2 counterexample: the claim that whenever some region of a well-formed
snapshot satisfies begin ≤ ip < end, resolve queries that region's translator
at ip - begin + offset, is false at a region boundary: with adjacent regions
[0,10) and [10,20) and ip = 10, the ordered lookup returns the first region
(end 10 ≥ 10), the bounds re-check fails, and resolve returns none although
the second region contains ip and its translator answers. -/
theorem c2_claim_counterexample :
    ¬ (∀ (tr : Nat → Nat → Option FuncSymbol) (regions : List (Nat × PidRegionResolver))
        (ip : Nat), SnapshotWF regions →
        ((∀ kv ∈ regions, ¬ (kv.2.rbegin ≤ ip ∧ ip < kv.2.rend)) →
          pidResolve tr regions ip = none) ∧
        ∀ kv ∈ regions, kv.2.rbegin ≤ ip → ip < kv.2.rend →
          pidResolve tr regions ip =
            tr kv.2.resolver_idx (ip - kv.2.rbegin + kv.2.start_offset)) := by
  intro h
  have h2 := (h (fun _ _ => some ⟨"f", "g"⟩) [(10, ⟨0, 10, 0, 0⟩), (20, ⟨10, 20, 7, 1⟩)] 10
      (by constructor
          · decide
          · exact ⟨by decide, by decide⟩)).2
    (20, ⟨10, 20, 7, 1⟩) (by simp) (by decide) (by decide)
  have hval : pidResolve (fun _ _ => some ⟨"f", "g"⟩)
      [(10, ⟨0, 10, 0, 0⟩), (20, ⟨10, 20, 7, 1⟩)] 10 = none := rfl
  rw [hval] at h2
  exact Option.noConfusion h2

/-- C2 amended: over a well-formed snapshot of non-overlapping regions, if no
region satisfies begin ≤ ip < end then resolve(ip) is none, never an error
(errors are unrepresentable in its Option result); if some region does and,
additionally, ip is not the end of any region, resolve queries that region's
pooled translator with ip - begin + offset and returns its answer (none on
translation failure); when ip equals a preceding region's end, the lookup
stops at that region and resolution yields none even for a contained ip. -/
theorem c2_resolve_amended (tr : Nat → Nat → Option FuncSymbol)
    (regions : List (Nat × PidRegionResolver)) (ip : Nat) (hwf : SnapshotWF regions) :
    ((∀ kv ∈ regions, ¬ (kv.2.rbegin ≤ ip ∧ ip < kv.2.rend)) →
      pidResolve tr regions ip = none) ∧
    ∀ kv ∈ regions, kv.2.rbegin ≤ ip → ip < kv.2.rend →
      (∀ kv2 ∈ regions, kv2.2.rend ≠ ip) →
      pidResolve tr regions ip =
        tr kv.2.resolver_idx (ip - kv.2.rbegin + kv.2.start_offset) := by
  obtain ⟨hchain, hkey, hne⟩ := hwf
  constructor
  · intro hnone
    cases hfind : btreeFirstGE regions ip with
    | none => simp [pidResolve, hfind]
    | some kv =>
      have hmem : kv ∈ regions := by
        unfold btreeFirstGE at hfind
        exact List.mem_of_find?_eq_some hfind
      simp [pidResolve, hfind, hnone kv hmem]
  · intro kv hmem hlo hhi hnotend
    have hfind := btreeFirstGE_containing regions ip hchain hkey kv hmem hlo hhi hnotend
    simp [pidResolve, hfind, hlo, hhi]

/-- C2 witness: an interior address of a single-region snapshot resolves
through the region's translator at the file-relative address. -/
theorem c2_resolve_witness :
    pidResolve (fun _ _ => some ⟨"f", "s"⟩) [(10, ⟨0, 10, 3, 0⟩)] 5 = some ⟨"f", "s"⟩ := by
  have h := (c2_resolve_amended (fun _ _ => some ⟨"f", "s"⟩) [(10, ⟨0, 10, 3, 0⟩)] 5
      (by exact ⟨by decide, by decide, by decide⟩)).2
    (10, ⟨0, 10, 3, 0⟩) (by simp) (by decide) (by decide) (by decide)
  simpa using h

/-! ## Helper lemmas about the resolver pool construction -/

theorem mem_stInsert (k : Nat) (v : PidRegionResolver) :
    ∀ (l : List (Nat × PidRegionResolver)) (kv : Nat × PidRegionResolver),
      kv ∈ stInsert k v l → kv = (k, v) ∨ kv ∈ l := by
  intro l
  induction l with
  | nil =>
    intro kv h
    rw [stInsert] at h
    exact Or.inl (List.mem_singleton.mp h)
  | cons a rest ih =>
    intro kv h
    obtain ⟨k', v'⟩ := a
    rw [stInsert] at h
    by_cases h1 : k < k'
    · rw [if_pos h1] at h
      rcases List.mem_cons.mp h with rfl | h'
      · exact Or.inl rfl
      · exact Or.inr h'
    · rw [if_neg h1] at h
      by_cases h2 : k = k'
      · rw [if_pos h2] at h
        rcases List.mem_cons.mp h with rfl | h'
        · exact Or.inl rfl
        · exact Or.inr (List.mem_cons_of_mem _ h')
      · rw [if_neg h2] at h
        rcases List.mem_cons.mp h with rfl | h'
        · exact Or.inr (List.mem_cons_self _ _)
        · rcases ih kv h' with hl | hr
          · exact Or.inl hl
          · exact Or.inr (List.mem_cons_of_mem _ hr)

theorem get_append_length {α : Type} (l : List α) (a : α)
    (h : l.length < (l ++ [a]).length) : (l ++ [a]).get ⟨l.length, h⟩ = a := by
  induction l with
  | nil => rfl
  | cons x xs ih => exact ih (by simp)

theorem get_append_left {α : Type} (l t : List α) (i : Nat) (h : i < l.length)
    (h2 : i < (l ++ t).length) : (l ++ t).get ⟨i, h2⟩ = l.get ⟨i, h⟩ := by
  simp [List.getElem_append_left h]

theorem entryProp_append (R : List MappedRegion) (res t : List String)
    (kv : Nat × PidRegionResolver) (h : EntryProp R res kv) :
    EntryProp R (res ++ t) kv := by
  obtain ⟨r, hr, h1, h2, h3, h4, hlt, hget⟩ := h
  refine ⟨r, hr, h1, h2, h3, h4, by simp; omega, ?_⟩
  rw [get_append_left res t _ hlt]
  exact hget

theorem buildLoop_ok_spec :
    ∀ (rs : List MappedRegion) (res0 : List String)
      (map0 : List (Nat × PidRegionResolver)) (res : List String)
      (map : List (Nat × PidRegionResolver)),
      buildLoop (fun _ => Except.ok ()) rs res0 map0 = Except.ok (res, map) →
      res0.Nodup →
      (∃ t, res = res0 ++ t) ∧ res.Nodup ∧
      (∀ p, p ∈ res ↔ p ∈ res0 ∨ ∃ r ∈ rs, r.file = p) ∧
      ∀ R : List MappedRegion, (∀ kv ∈ map0, EntryProp R res0 kv) →
        (∀ r ∈ rs, r ∈ R) → ∀ kv ∈ map, EntryProp R res kv := by
  intro rs
  induction rs with
  | nil =>
    intro res0 map0 res map h hnd
    rw [buildLoop] at h
    injection h with h'
    injection h' with ha hb
    subst ha
    subst hb
    exact ⟨⟨[], by simp⟩, hnd, fun p => by simp, fun R hm _ kv hkv => hm kv hkv⟩
  | cons r rest ih =>
    intro res0 map0 res map h hnd
    rw [buildLoop] at h
    cases hpos : listPosition (fun x => decide (x = r.file)) res0 with
    | some i =>
      simp only [hpos] at h
      obtain ⟨⟨t, ht⟩, hndr, hmemiff, hentry⟩ := ih res0 _ res map h hnd
      obtain ⟨hilt, hip⟩ := listPosition_eq_some hpos
      have hgeti : res0.get ⟨i, hilt⟩ = r.file := by simpa using hip
      refine ⟨⟨t, ht⟩, hndr, ?_, ?_⟩
      · intro p
        rw [hmemiff p]
        constructor
        · rintro (hp | ⟨r', hr', rfl⟩)
          · exact Or.inl hp
          · exact Or.inr ⟨r', List.mem_cons_of_mem _ hr', rfl⟩
        · rintro (hp | ⟨r', hr', rfl⟩)
          · exact Or.inl hp
          · rcases List.mem_cons.mp hr' with rfl | hr''
            · exact Or.inl (hgeti ▸ List.get_mem res0 i hilt)
            · exact Or.inr ⟨r', hr'', rfl⟩
      · intro R hmap0 hrs kv hkv
        apply hentry R ?_ (fun r' h' => hrs r' (List.mem_cons_of_mem _ h')) kv hkv
        intro kv' hkv'
        rcases mem_stInsert _ _ _ _ hkv' with rfl | hkv''
        · exact ⟨r, hrs r (List.mem_cons_self r rest), rfl, rfl, rfl, rfl, hilt, hgeti⟩
        · exact hmap0 kv' hkv''
    | none =>
      simp only [hpos] at h
      have hnotin : r.file ∉ res0 := fun hin => by
        have := listPosition_eq_none hpos r.file hin
        simp at this
      have hnd' : (res0 ++ [r.file]).Nodup := by
        rw [List.nodup_append]
        exact ⟨hnd, List.nodup_singleton _,
          fun a ha hb => hnotin ((List.mem_singleton.mp hb) ▸ ha)⟩
      obtain ⟨⟨t, ht⟩, hndr, hmemiff, hentry⟩ := ih (res0 ++ [r.file]) _ res map h hnd'
      refine ⟨⟨[r.file] ++ t, by rw [ht, List.append_assoc]⟩, hndr, ?_, ?_⟩
      · intro p
        rw [hmemiff p]
        constructor
        · rintro (hp | ⟨r', hr', rfl⟩)
          · rcases List.mem_append.mp hp with hp0 | hpf
            · exact Or.inl hp0
            · exact Or.inr ⟨r, List.mem_cons_self r rest,
                (List.mem_singleton.mp hpf).symm⟩
          · exact Or.inr ⟨r', List.mem_cons_of_mem _ hr', rfl⟩
        · rintro (hp | ⟨r', hr', rfl⟩)
          · exact Or.inl (List.mem_append.mpr (Or.inl hp))
          · rcases List.mem_cons.mp hr' with rfl | hr''
            · exact Or.inl (List.mem_append.mpr (Or.inr (by simp)))
            · exact Or.inr ⟨r', hr'', rfl⟩
      · intro R hmap0 hrs kv hkv
        apply hentry R ?_ (fun r' h' => hrs r' (List.mem_cons_of_mem _ h')) kv hkv
        intro kv' hkv'
        rcases mem_stInsert _ _ _ _ hkv' with rfl | hkv''
        · exact ⟨r, hrs r (List.mem_cons_self r rest), rfl, rfl, rfl, rfl, by simp,
            get_append_length res0 r.file (by simp)⟩
        · exact entryProp_append R res0 [r.file] kv' (hmap0 kv' hkv'')

/-- C9: after a construction in which every worker spawn succeeds, the
resolver pool contains no duplicate file path, a pool entry exists exactly
for the file paths of the snapshot's regions (one spawned worker per
distinct path), and every indexed region entry carries a valid resolver
index whose pool entry holds exactly that region's file path — so all
regions sharing a path refer to the single pooled translator.  resolve and
resolve_sample take the constructed value as read-only input, so the
invariant persists for the whole resolution session. -/
theorem c9_pooling (rs : List MappedRegion) (res : List String)
    (map : List (Nat × PidRegionResolver))
    (h : pidResolverNew (fun _ => Except.ok ()) rs = Except.ok (res, map)) :
    res.Nodup ∧
    (∀ p, p ∈ res ↔ ∃ r ∈ rs, r.file = p) ∧
    ∀ kv ∈ map, ∃ r ∈ rs, kv.1 = r.rend ∧ kv.2.rbegin = r.rbegin ∧
      kv.2.rend = r.rend ∧ kv.2.start_offset = r.offset ∧
      ∃ hlt : kv.2.resolver_idx < res.length,
        res.get ⟨kv.2.resolver_idx, hlt⟩ = r.file := by
  obtain ⟨⟨t, ht⟩, hnd, hmem, hentry⟩ :=
    buildLoop_ok_spec rs [] [] res map h List.nodup_nil
  refine ⟨hnd, fun p => by simpa using hmem p, fun kv hkv => ?_⟩
  exact hentry rs (fun kv' h' => absurd h' (List.not_mem_nil kv')) (fun r hr => hr) kv hkv

/-- C9 witness: a three-region snapshot with two regions sharing a path
yields a two-entry pool and consistent indices. -/
theorem c9_pooling_witness :
    (["a", "b"] : List String).Nodup ∧
    (∀ p, p ∈ (["a", "b"] : List String) ↔
      ∃ r ∈ [(⟨"a", 0, 10, 0⟩ : MappedRegion), ⟨"b", 10, 20, 5⟩, ⟨"a", 20, 30, 7⟩],
        r.file = p) ∧
    ∀ kv ∈ [(10, (⟨0, 10, 0, 0⟩ : PidRegionResolver)), (20, ⟨10, 20, 5, 1⟩),
        (30, ⟨20, 30, 7, 0⟩)],
      ∃ r ∈ [(⟨"a", 0, 10, 0⟩ : MappedRegion), ⟨"b", 10, 20, 5⟩, ⟨"a", 20, 30, 7⟩],
        kv.1 = r.rend ∧ kv.2.rbegin = r.rbegin ∧ kv.2.rend = r.rend ∧
        kv.2.start_offset = r.offset ∧
        ∃ hlt : kv.2.resolver_idx < (["a", "b"] : List String).length,
          (["a", "b"] : List String).get ⟨kv.2.resolver_idx, hlt⟩ = r.file :=
  c9_pooling [⟨"a", 0, 10, 0⟩, ⟨"b", 10, 20, 5⟩, ⟨"a", 20, 30, 7⟩] ["a", "b"]
    [(10, ⟨0, 10, 0, 0⟩), (20, ⟨10, 20, 5, 1⟩), (30, ⟨20, 30, 7, 0⟩)] rfl

end Tauphi
